import Mathlib

/-!
# Verification of the 1-D heat-equation solver (`lib/solution.py`, `lib/functions.py`)

Shallow embedding of the repository's core: the `InitialState` class, the
`Solution` class (construction, stability factor, explicit time stepping) and
the registry of initial-condition functions.  Machine floating-point values
are modelled as rationals (`ℚ`); the exact claims under study are about the
algebraic form of the computations, not about rounding.

The entry `"sin(pi*x)"` of the registry applies `np.sin(np.pi * x)`, a
transcendental pointwise map whose particular values are irrelevant to every
claim below; the development is therefore parametric in a function
`s : ℚ → ℚ` standing for that pointwise map, and every theorem quantifies
over it.
-/

namespace HeatSim

/-- Failure modes of construction, one per raise site reachable from
`Solution.__init__`:
* `unstable` — the `ValueError` raised in `Solution.calculate_r` when `r > 0.5`;
* `unknownFunction` — the `ValueError` raised in `InitialState.__init__` when
  the function name is not a registry key;
* `zeroDivision` — Python's `ZeroDivisionError` from `L / nx`, `T / nt` or
  `alpha * dt / dx ** 2` when the divisor is zero;
* `negSamples` — numpy's `ValueError` from `np.linspace(0, L, nx)` when
  `nx < 0`. -/
inductive Err where
  | unstable
  | unknownFunction
  | zeroDivision
  | negSamples
deriving DecidableEq, Repr

/-- One entry of the registry in `lib/functions.py`: the pointwise map, and
whether the Python lambda returns its argument object itself (true exactly for
`"x"`, whose body is `lambda x: x`; the other two build fresh numpy arrays).
The flag records object identity, which matters because `InitialState`
writes boundary overrides into the returned array in place. -/
structure RegEntry where
  f : ℚ → ℚ
  returnsArg : Bool

/-- The registry `functions` of `lib/functions.py`.  `s` models the pointwise
map of the `"sin(pi*x)"` entry (see the module docstring). -/
def functions (s : ℚ → ℚ) : List (String × RegEntry) :=
  [("sin(pi*x)", ⟨s, false⟩),
   ("x*(1 - x)", ⟨fun x => x * (1 - x), false⟩),
   ("x", ⟨fun x => x, true⟩)]

/-- Result of `InitialState.__init__`: the attribute `u` (initial temperatures
after boundary overrides) and the array object `x` as it stands afterwards.
When the chosen registry entry returns its argument object (`"x"`), the
boundary writes `self.u[0] = ...` / `self.u[-1] = ...` go through to the very
array that was passed in, so the grid seen by the caller afterwards is `u`
itself; otherwise the grid is untouched. -/
structure InitialState where
  x : List ℚ
  u : List ℚ
deriving DecidableEq, Repr

/-- The statement `if left_boundary is not None: self.u[0] = left_boundary`:
an explicit presence check on the optional value, never a truthiness test, so
`some 0` is applied. -/
def applyLeft (u : List ℚ) : Option ℚ → List ℚ
  | some v => u.set 0 v
  | none => u

/-- The statement `if right_boundary is not None: self.u[-1] = right_boundary`.
`u.set (u.length - 1) v` models `u[-1] = v` on a nonempty array; the Python
`IndexError` on an empty array is unreachable from `Solution.__init__` (an
empty grid would require `nx = 0`, which already fails in `calculate_r`). -/
def applyRight (u : List ℚ) : Option ℚ → List ℚ
  | some v => u.set (u.length - 1) v
  | none => u

/-- `InitialState.__init__` (`lib/solution.py`): look the name up in the
registry (raising for unknown names), apply the function pointwise to the
grid, then write the optional boundary overrides into the result in place.
When the registry entry returned its argument object itself, those writes land
in the caller's grid array, so the grid afterwards is `u` itself. -/
def initialState (s : ℚ → ℚ) (function : String) (x : List ℚ)
    (left_boundary right_boundary : Option ℚ) : Except Err InitialState :=
  match (functions s).lookup function with
  | none => .error .unknownFunction
  | some e =>
    let u2 := applyRight (applyLeft (x.map e.f) left_boundary) right_boundary
    .ok ⟨if e.returnsArg then u2 else x, u2⟩

/-- `np.linspace(0, L, n)` for `n ≥ 0`: `n` evenly spaced points from `0` to
`L` inclusive (`[0]` for a single sample, empty for zero samples). -/
def linspace (L : ℚ) (n : ℕ) : List ℚ :=
  if n = 1 then [0]
  else (List.range n).map (fun i : ℕ => (i : ℚ) * (L / ((n : ℚ) - 1)))

/-- `np.linspace(0, L, nx)`, failing as numpy does when the sample count is
negative. -/
def linspaceE (L : ℚ) (nx : ℤ) : Except Err (List ℚ) :=
  if nx < 0 then .error .negSamples else .ok (linspace L nx.toNat)

/-- `Solution.calculate_r`: `dx = L / nx`, `dt = T / nt`,
`r = alpha * dt / dx ** 2`, failing when `r > 0.5`.  Each Python division by
zero is made explicit as a `zeroDivision` failure, in evaluation order. -/
def calculate_r (alpha L T : ℚ) (nx nt : ℤ) : Except Err ℚ :=
  if nx = 0 then .error .zeroDivision
  else
    let dx := L / (nx : ℚ)
    if nt = 0 then .error .zeroDivision
    else
      let dt := T / (nt : ℚ)
      if dx = 0 then .error .zeroDivision
      else
        let r := alpha * dt / dx ^ 2
        if r > 1/2 then .error .unstable else .ok r

/-- The state of a `Solution` object: the simulation parameters, the stability
factor `r`, the grid `x`, the current state `u` and the history `U`. -/
structure Solution where
  alpha : ℚ
  L : ℚ
  T : ℚ
  nx : ℤ
  nt : ℤ
  r : ℚ
  x : List ℚ
  u : List ℚ
  U : List (List ℚ)
deriving DecidableEq, Repr

/-- `Solution.__init__`: compute `r` (stability gate), build the grid, build
the initial state (whose construction may write through to the grid array,
see `InitialState`), set `u` to it and start the history `U = [u.copy()]`.
The failure points occur in the source's evaluation order. -/
def construct (s : ℚ → ℚ) (initial_function : String) (alpha L T : ℚ)
    (nx nt : ℤ) (left_boundary right_boundary : Option ℚ) :
    Except Err Solution :=
  match calculate_r alpha L T nx nt with
  | .error e => .error e
  | .ok r =>
    match linspaceE L nx with
    | .error e => .error e
    | .ok x0 =>
      match initialState s initial_function x0 left_boundary right_boundary with
      | .error e => .error e
      | .ok ist => .ok ⟨alpha, L, T, nx, nt, r, ist.x, ist.u, [ist.u]⟩

/-- One time step of `Solution.solve`:
`u_new = u.copy(); u_new[1:-1] = u[1:-1] + r * (u[2:] - 2*u[1:-1] + u[:-2])`.
Position `i` receives the stencil value when `1 ≤ i ≤ len - 2` and is left at
`u[i]` otherwise; the right-hand side reads only the previous state `u`. -/
def step (r : ℚ) (u : List ℚ) : List ℚ :=
  List.ofFn (fun i : Fin u.length =>
    if 1 ≤ (i : ℕ) ∧ (i : ℕ) + 1 < u.length then
      u.get i + r * (u.getD ((i : ℕ) + 1) 0 - 2 * u.get i + u.getD ((i : ℕ) - 1) 0)
    else u.get i)

/-- The loop of `Solution.solve`: `n` iterations, each appending the stepped
state to the history and making it current. -/
def solveLoop (r : ℚ) : ℕ → List ℚ × List (List ℚ) → List ℚ × List (List ℚ)
  | 0, st => st
  | n + 1, (u, U) => solveLoop r n (step r u, U ++ [step r u])

/-- `Solution.solve`: run the loop `range(self.nt)` times (no iterations when
`nt ≤ 0`, matching Python's `range`), return `(self.x, np.array(self.U))`
together with the mutated object. -/
def solve (sol : Solution) : (List ℚ × List (List ℚ)) × Solution :=
  let st := solveLoop sol.r sol.nt.toNat (sol.u, sol.U)
  ((sol.x, st.2), ⟨sol.alpha, sol.L, sol.T, sol.nx, sol.nt, sol.r, sol.x, st.1, st.2⟩)

/-! ## Basic lemmas about the embedded operations -/

variable {s : ℚ → ℚ} {fn : String} {alpha L T r : ℚ} {nx nt : ℤ}
variable {x u : List ℚ} {lb rb : Option ℚ} {e : RegEntry}
variable {ist : InitialState} {sol : Solution} {k : ℕ}

theorem length_step (r : ℚ) (u : List ℚ) : (step r u).length = u.length := by
  simp [step]

theorem getD_step (r : ℚ) (u : List ℚ) {i : ℕ} (h : i < u.length) :
    (step r u).getD i 0 =
      if 1 ≤ i ∧ i + 1 < u.length then
        u.getD i 0 + r * (u.getD (i + 1) 0 - 2 * u.getD i 0 + u.getD (i - 1) 0)
      else u.getD i 0 := by
  have h' : i < (step r u).length := by rw [length_step]; exact h
  rw [List.getD_eq_getElem _ _ h', List.getD_eq_getElem _ _ h]
  unfold step
  rw [List.getElem_ofFn]
  simp only [List.get_eq_getElem]

theorem step_getD_zero (r : ℚ) (u : List ℚ) :
    (step r u).getD 0 0 = u.getD 0 0 := by
  rcases Nat.eq_zero_or_pos u.length with h | h
  · rw [List.getD_eq_default _ _ (by rw [length_step]; omega),
      List.getD_eq_default _ _ (by omega)]
  · rw [getD_step r u h, if_neg]
    omega

theorem step_getD_last (r : ℚ) (u : List ℚ) :
    (step r u).getD (u.length - 1) 0 = u.getD (u.length - 1) 0 := by
  rcases Nat.eq_zero_or_pos u.length with h | h
  · rw [List.getD_eq_default _ _ (by rw [length_step]; omega),
      List.getD_eq_default _ _ (by omega)]
  · rw [getD_step r u (by omega), if_neg]
    omega

theorem length_iterate_step (r : ℚ) (u : List ℚ) (k : ℕ) :
    ((step r)^[k] u).length = u.length := by
  induction k generalizing u with
  | zero => rfl
  | succ k ih => rw [Function.iterate_succ_apply, ih, length_step]

theorem iterate_step_getD_zero (r : ℚ) (u : List ℚ) (k : ℕ) :
    ((step r)^[k] u).getD 0 0 = u.getD 0 0 := by
  induction k with
  | zero => rfl
  | succ k ih => rw [Function.iterate_succ_apply', step_getD_zero, ih]

theorem iterate_step_getD_last (r : ℚ) (u : List ℚ) (k : ℕ) :
    ((step r)^[k] u).getD (u.length - 1) 0 = u.getD (u.length - 1) 0 := by
  induction k with
  | zero => rfl
  | succ k ih =>
    rw [Function.iterate_succ_apply']
    have := step_getD_last r ((step r)^[k] u)
    rw [length_iterate_step] at this
    rw [this, ih]

theorem solveLoop_eq (r : ℚ) (n : ℕ) (u : List ℚ) (U : List (List ℚ)) :
    solveLoop r n (u, U) =
      ((step r)^[n] u, U ++ (List.range n).map (fun k => (step r)^[k + 1] u)) := by
  induction n generalizing u U with
  | zero => simp [solveLoop]
  | succ n ih =>
    rw [solveLoop, ih]
    refine Prod.ext ?_ ?_
    · exact (Function.iterate_succ_apply (step r) n u).symm
    · show (U ++ [step r u]) ++ _ = U ++ _
      have hmap : (List.range n).map ((fun k => (step r)^[k + 1] u) ∘ Nat.succ) =
          (List.range n).map (fun k => (step r)^[k + 1] (step r u)) :=
        List.map_congr_left
          (fun j _ => Function.iterate_succ_apply (step r) (j + 1) u)
      rw [List.append_assoc, List.range_succ_eq_map, List.map_cons, List.map_map,
        List.singleton_append, hmap]
      rfl

/-! ## Inversion lemmas for construction -/

theorem calculate_r_ok (h : calculate_r alpha L T nx nt = .ok r) :
    nx ≠ 0 ∧ nt ≠ 0 ∧ L ≠ 0 ∧
      r = alpha * (T / (nt : ℚ)) / (L / (nx : ℚ)) ^ 2 ∧ r ≤ 1/2 := by
  unfold calculate_r at h
  dsimp only at h
  split_ifs at h with h1 h2 h3 h4
  injection h with h
  subst h
  have hL : L ≠ 0 := fun hL0 => h3 (by rw [hL0, zero_div])
  exact ⟨h1, h2, hL, rfl, not_lt.mp h4⟩

theorem calculate_r_eq_ok (h1 : nx ≠ 0) (h2 : nt ≠ 0) (h3 : L ≠ 0)
    (h4 : alpha * (T / (nt : ℚ)) / (L / (nx : ℚ)) ^ 2 ≤ 1/2) :
    calculate_r alpha L T nx nt =
      .ok (alpha * (T / (nt : ℚ)) / (L / (nx : ℚ)) ^ 2) := by
  have hnx : ((nx : ℚ) ≠ 0) := Int.cast_ne_zero.mpr h1
  unfold calculate_r
  dsimp only
  rw [if_neg h1, if_neg h2, if_neg (div_ne_zero h3 hnx), if_neg (not_lt.mpr h4)]

theorem calculate_r_eq_error (h1 : nx ≠ 0) (h2 : nt ≠ 0) (h3 : L ≠ 0)
    (h4 : 1/2 < alpha * (T / (nt : ℚ)) / (L / (nx : ℚ)) ^ 2) :
    calculate_r alpha L T nx nt = .error .unstable := by
  have hnx : ((nx : ℚ) ≠ 0) := Int.cast_ne_zero.mpr h1
  unfold calculate_r
  dsimp only
  rw [if_neg h1, if_neg h2, if_neg (div_ne_zero h3 hnx), if_pos h4]

theorem r_formula (alpha L T : ℚ) (nx nt : ℤ) :
    alpha * (T / (nt : ℚ)) / (L / (nx : ℚ)) ^ 2 =
      alpha * (T / (nt : ℚ)) * (nx : ℚ) ^ 2 / L ^ 2 := by
  field_simp

theorem initialState_ok (h : initialState s fn x lb rb = .ok ist) :
    ∃ e, (functions s).lookup fn = some e ∧
      ist.u = applyRight (applyLeft (x.map e.f) lb) rb ∧
      ist.x = if e.returnsArg then ist.u else x := by
  unfold initialState at h
  cases he : (functions s).lookup fn with
  | none => rw [he] at h; exact absurd h (by simp)
  | some e =>
    rw [he] at h
    injection h with h
    exact ⟨e, rfl, by rw [← h], by rw [← h]⟩

theorem initialState_eq_ok (he : (functions s).lookup fn = some e) :
    initialState s fn x lb rb =
      .ok ⟨if e.returnsArg then applyRight (applyLeft (x.map e.f) lb) rb else x,
           applyRight (applyLeft (x.map e.f) lb) rb⟩ := by
  unfold initialState
  rw [he]

theorem construct_ok (h : construct s fn alpha L T nx nt lb rb = .ok sol) :
    sol.alpha = alpha ∧ sol.L = L ∧ sol.T = T ∧ sol.nx = nx ∧ sol.nt = nt ∧
      calculate_r alpha L T nx nt = .ok sol.r ∧ sol.U = [sol.u] ∧
      ∃ ist, initialState s fn (linspace L nx.toNat) lb rb = .ok ist ∧
        sol.x = ist.x ∧ sol.u = ist.u ∧ ¬nx < 0 := by
  unfold construct at h
  cases hr : calculate_r alpha L T nx nt with
  | error e => rw [hr] at h; exact absurd h (by simp)
  | ok r =>
    rw [hr] at h
    dsimp only at h
    unfold linspaceE at h
    split_ifs at h with hneg
    dsimp only at h
    cases hi : initialState s fn (linspace L nx.toNat) lb rb with
    | error e => rw [hi] at h; exact absurd h (by simp)
    | ok ist =>
      rw [hi] at h
      dsimp only at h
      injection h with h
      subst h
      exact ⟨rfl, rfl, rfl, rfl, rfl, rfl, rfl, ist, rfl, rfl, rfl, hneg⟩

theorem construct_eq_ok (hr : calculate_r alpha L T nx nt = .ok r)
    (hneg : ¬nx < 0)
    (hi : initialState s fn (linspace L nx.toNat) lb rb = .ok ist) :
    construct s fn alpha L T nx nt lb rb =
      .ok ⟨alpha, L, T, nx, nt, r, ist.x, ist.u, [ist.u]⟩ := by
  unfold construct linspaceE
  rw [hr]
  dsimp only
  rw [if_neg hneg]
  dsimp only
  rw [hi]

/-! ## The history produced by `solve` -/

theorem solve_fst (sol : Solution) : (solve sol).1.1 = sol.x := rfl

theorem solve_hist (h : sol.U = [sol.u]) :
    (solve sol).1.2 =
      (List.range (sol.nt.toNat + 1)).map (fun k => (step sol.r)^[k] sol.u) := by
  show (solveLoop sol.r sol.nt.toNat (sol.u, sol.U)).2 = _
  rw [h, solveLoop_eq, List.range_succ_eq_map, List.map_cons, List.map_map]
  rfl

theorem solve_hist_length (h : sol.U = [sol.u]) :
    ((solve sol).1.2).length = sol.nt.toNat + 1 := by
  rw [solve_hist h, List.length_map, List.length_range]

theorem solve_hist_getD (h : sol.U = [sol.u]) (hk : k ≤ sol.nt.toNat) :
    ((solve sol).1.2).getD k [] = (step sol.r)^[k] sol.u := by
  rw [solve_hist h]
  have hk' : k < ((List.range (sol.nt.toNat + 1)).map
      (fun k => (step sol.r)^[k] sol.u)).length := by
    rw [List.length_map, List.length_range]; omega
  rw [List.getD_eq_getElem _ _ hk', List.getElem_map, List.getElem_range]

/-! ## Convexity of the stencil: values stay inside any bounds of the state -/

theorem getD_mem {α : Type} {u : List α} {i : ℕ} (d : α) (h : i < u.length) :
    u.getD i d ∈ u := by
  rw [List.getD_eq_getElem _ _ h]
  exact List.getElem_mem h

theorem mem_step_bounds {r m M : ℚ} {u : List ℚ} (hr0 : 0 ≤ r) (hr : r ≤ 1/2)
    (hb : ∀ v ∈ u, m ≤ v ∧ v ≤ M) : ∀ v ∈ step r u, m ≤ v ∧ v ≤ M := by
  intro v hv
  unfold step at hv
  rw [List.mem_ofFn] at hv
  obtain ⟨i, hi⟩ := hv
  dsimp only at hi
  have hbi : m ≤ u.get i ∧ u.get i ≤ M := by
    refine hb _ ?_
    rw [List.get_eq_getElem]
    exact List.getElem_mem i.isLt
  by_cases hint : 1 ≤ (i : ℕ) ∧ (i : ℕ) + 1 < u.length
  · rw [if_pos hint] at hi
    subst hi
    have hbc : m ≤ u.getD ((i : ℕ) + 1) 0 ∧ u.getD ((i : ℕ) + 1) 0 ≤ M :=
      hb _ (getD_mem 0 hint.2)
    have hba : m ≤ u.getD ((i : ℕ) - 1) 0 ∧ u.getD ((i : ℕ) - 1) 0 ≤ M :=
      hb _ (getD_mem 0 (by omega))
    constructor
    · nlinarith [mul_nonneg hr0 (sub_nonneg.mpr hba.1),
        mul_nonneg hr0 (sub_nonneg.mpr hbc.1),
        mul_nonneg (sub_nonneg.mpr hbi.1) (by linarith : (0 : ℚ) ≤ 1 - 2 * r)]
    · nlinarith [mul_nonneg hr0 (sub_nonneg.mpr hba.2),
        mul_nonneg hr0 (sub_nonneg.mpr hbc.2),
        mul_nonneg (sub_nonneg.mpr hbi.2) (by linarith : (0 : ℚ) ≤ 1 - 2 * r)]
  · rw [if_neg hint] at hi
    subst hi
    exact hbi

theorem mem_iterate_step_bounds {r m M : ℚ} {u : List ℚ} (hr0 : 0 ≤ r)
    (hr : r ≤ 1/2) (hb : ∀ v ∈ u, m ≤ v ∧ v ≤ M) (k : ℕ) :
    ∀ v ∈ (step r)^[k] u, m ≤ v ∧ v ≤ M := by
  induction k with
  | zero => exact hb
  | succ k ih =>
    rw [Function.iterate_succ_apply']
    exact mem_step_bounds hr0 hr ih

/-! ## Helper lemmas about the grid and the boundary overrides -/

theorem length_linspace (L : ℚ) (n : ℕ) : (linspace L n).length = n := by
  unfold linspace
  split_ifs with h
  · rw [h]; rfl
  · rw [List.length_map, List.length_range]

theorem linspace_getD_zero (L : ℚ) (n : ℕ) (h : 1 ≤ n) :
    (linspace L n).getD 0 0 = 0 := by
  unfold linspace
  split_ifs with h1
  · rfl
  · have h0 : 0 < ((List.range n).map (fun i : ℕ => (i : ℚ) * (L / ((n : ℚ) - 1)))).length := by
      rw [List.length_map, List.length_range]; omega
    rw [List.getD_eq_getElem _ _ h0, List.getElem_map, List.getElem_range]
    simp

theorem length_applyLeft (u : List ℚ) (lb : Option ℚ) :
    (applyLeft u lb).length = u.length := by
  cases lb with
  | none => rfl
  | some v => exact List.length_set u 0 v

theorem length_applyRight (u : List ℚ) (rb : Option ℚ) :
    (applyRight u rb).length = u.length := by
  cases rb with
  | none => rfl
  | some v => exact List.length_set u (u.length - 1) v

theorem getD_zero_applyRight (u : List ℚ) (rb : Option ℚ) (h : 2 ≤ u.length) :
    (applyRight u rb).getD 0 0 = u.getD 0 0 := by
  cases rb with
  | none => rfl
  | some v =>
    show (u.set (u.length - 1) v).getD 0 0 = _
    have h0 : 0 < (u.set (u.length - 1) v).length := by
      rw [List.length_set]; omega
    rw [List.getD_eq_getElem _ _ h0, List.getElem_set, if_neg (by omega),
      List.getD_eq_getElem _ _ (by omega)]

theorem getD_zero_applyLeft_some (u : List ℚ) (v : ℚ) (h : 0 < u.length) :
    (applyLeft u (some v)).getD 0 0 = v := by
  show (u.set 0 v).getD 0 0 = v
  rw [List.getD_eq_getElem _ _ (by rw [List.length_set]; omega),
    List.getElem_set, if_pos rfl]

theorem getD_zero_map (f : ℚ → ℚ) (u : List ℚ) (h : 0 < u.length) :
    (u.map f).getD 0 0 = f (u.getD 0 0) := by
  rw [List.getD_eq_getElem _ _ (by rw [List.length_map]; omega),
    List.getElem_map, List.getD_eq_getElem _ _ h]

theorem solve_snd (sol : Solution) :
    (solve sol).2 = ⟨sol.alpha, sol.L, sol.T, sol.nx, sol.nt, sol.r, sol.x,
      (solveLoop sol.r sol.nt.toNat (sol.u, sol.U)).1,
      (solveLoop sol.r sol.nt.toNat (sol.u, sol.U)).2⟩ := rfl

/-! ## Claim theorems -/

/-- C1: for every successfully constructed solver and every time step
`n < nt`, the state appended at step `n + 1` satisfies
`u_new[i] = u[i] + r * (u[i+1] - 2*u[i] + u[i-1])` at every interior index
`1 ≤ i ≤ nx - 2`, where `u` is the state at step `n` and `r` is the stored
stability factor; the right-hand side reads only the three same-index
neighbours of the previous step's state. -/
theorem C1_stencil (s : ℚ → ℚ) (fn : String) (alpha L T : ℚ) (nx nt : ℤ)
    (lb rb : Option ℚ) (sol : Solution)
    (h : construct s fn alpha L T nx nt lb rb = .ok sol)
    (n i : ℕ) (hn : n < sol.nt.toNat) (hi1 : 1 ≤ i)
    (hi2 : i + 1 < (((solve sol).1.2).getD n []).length) :
    (((solve sol).1.2).getD (n + 1) []).getD i 0 =
      (((solve sol).1.2).getD n []).getD i 0 +
        sol.r * ((((solve sol).1.2).getD n []).getD (i + 1) 0
          - 2 * (((solve sol).1.2).getD n []).getD i 0
          + (((solve sol).1.2).getD n []).getD (i - 1) 0) := by
  obtain ⟨-, -, -, -, -, -, hU, -⟩ := construct_ok h
  have hrow : ((solve sol).1.2).getD n [] = (step sol.r)^[n] sol.u :=
    solve_hist_getD hU (by omega)
  have hrow1 : ((solve sol).1.2).getD (n + 1) [] = (step sol.r)^[n + 1] sol.u :=
    solve_hist_getD hU (by omega)
  rw [hrow] at hi2
  rw [hrow, hrow1, Function.iterate_succ_apply']
  have hi' : i < ((step sol.r)^[n] sol.u).length := by omega
  rw [getD_step _ _ hi', if_pos ⟨hi1, hi2⟩]

/-- C4: a single call to `solve()` on a successfully constructed solver with
`nt = N ≥ 1` returns a history of exactly `N + 1` states (index 0 is the
initial condition, see `C5_boundary` and `solve_hist`); in particular `nt = 1`
yields a history of length 2. -/
theorem C4_history_length (s : ℚ → ℚ) (fn : String) (alpha L T : ℚ)
    (nx nt : ℤ) (lb rb : Option ℚ) (sol : Solution)
    (h : construct s fn alpha L T nx nt lb rb = .ok sol) (hnt : 1 ≤ nt) :
    (((solve sol).1.2).length : ℤ) = nt + 1 := by
  obtain ⟨-, -, -, -, hnt', -, hU, -⟩ := construct_ok h
  rw [solve_hist_length hU, hnt']
  push_cast
  omega

/-- C5: Dirichlet boundaries are never updated by the stepping operation:
for every index `k` into the history produced by `solve()`, the values at
positions `0` and `nx - 1` of state `k` agree with those of state `0` (the
initial condition). -/
theorem C5_boundary (s : ℚ → ℚ) (fn : String) (alpha L T : ℚ) (nx nt : ℤ)
    (lb rb : Option ℚ) (sol : Solution)
    (h : construct s fn alpha L T nx nt lb rb = .ok sol)
    (k : ℕ) (hk : k < ((solve sol).1.2).length) :
    (((solve sol).1.2).getD k []).getD 0 0 =
        (((solve sol).1.2).getD 0 []).getD 0 0 ∧
      (((solve sol).1.2).getD k []).getD (sol.u.length - 1) 0 =
        (((solve sol).1.2).getD 0 []).getD (sol.u.length - 1) 0 := by
  obtain ⟨-, -, -, -, -, -, hU, -⟩ := construct_ok h
  rw [solve_hist_length hU] at hk
  rw [solve_hist_getD hU (by omega), solve_hist_getD hU (by omega),
    Function.iterate_zero_apply]
  exact ⟨iterate_step_getD_zero sol.r sol.u k, iterate_step_getD_last sol.r sol.u k⟩

/-- C8: once construction has succeeded, `solve()` is total: the stepping
loop runs to completion with no failure mode, returning the pair of the grid
and the complete history of `nt + 1` states (`nt.toNat` models Python's
`range(nt)`, which runs zero iterations for a non-positive count). -/
theorem C8_total (s : ℚ → ℚ) (fn : String) (alpha L T : ℚ) (nx nt : ℤ)
    (lb rb : Option ℚ) (sol : Solution)
    (h : construct s fn alpha L T nx nt lb rb = .ok sol) :
    (solve sol).1.1 = sol.x ∧
      ((solve sol).1.2).length = sol.nt.toNat + 1 := by
  obtain ⟨-, -, -, -, -, -, hU, -⟩ := construct_ok h
  exact ⟨rfl, solve_hist_length hU⟩

theorem construct_error_r {err : Err}
    (hr : calculate_r alpha L T nx nt = .error err) :
    construct s fn alpha L T nx nt lb rb = .error err := by
  unfold construct
  rw [hr]

/-- C2 (amended): the solver computes `dx = L/nx` — not `L/(nx-1)` — so for
`alpha > 0`, `L > 0`, `T > 0`, `nx ≥ 3`, `nt ≥ 1` and a registered function
name, construction fails with the instability error exactly when
`alpha*(T/nt)*nx²/L² > 0.5` (no solver is produced then), and on success the
stored stability factor equals `alpha*(T/nt)*nx²/L²`. -/
theorem C2_stability (s : ℚ → ℚ) (fn : String) (alpha L T : ℚ) (nx nt : ℤ)
    (lb rb : Option ℚ) (e : RegEntry)
    (hreg : (functions s).lookup fn = some e)
    (halpha : 0 < alpha) (hL : 0 < L) (hT : 0 < T)
    (hnx : 3 ≤ nx) (hnt : 1 ≤ nt) :
    (construct s fn alpha L T nx nt lb rb = .error .unstable ↔
        1/2 < alpha * (T / (nt : ℚ)) * (nx : ℚ) ^ 2 / L ^ 2) ∧
      (∀ sol, construct s fn alpha L T nx nt lb rb = .ok sol →
        sol.r = alpha * (T / (nt : ℚ)) * (nx : ℚ) ^ 2 / L ^ 2) ∧
      (alpha * (T / (nt : ℚ)) * (nx : ℚ) ^ 2 / L ^ 2 ≤ 1/2 →
        (construct s fn alpha L T nx nt lb rb).isOk = true) := by
  have hnx0 : nx ≠ 0 := by omega
  have hnt0 : nt ≠ 0 := by omega
  have hL0 : L ≠ 0 := ne_of_gt hL
  have hform := r_formula alpha L T nx nt
  refine ⟨⟨fun herr => ?_, fun hgt => ?_⟩, fun sol hok => ?_, fun hle => ?_⟩
  · by_contra hgt
    rw [construct_eq_ok (calculate_r_eq_ok hnx0 hnt0 hL0 (by rw [hform]; exact not_lt.mp hgt))
      (by omega) (initialState_eq_ok hreg)] at herr
    exact absurd herr (by simp)
  · exact construct_error_r (calculate_r_eq_error hnx0 hnt0 hL0 (by rw [hform]; exact hgt))
  · obtain ⟨-, -, -, -, -, hr, -⟩ := construct_ok hok
    obtain ⟨-, -, -, hval, -⟩ := calculate_r_ok hr
    rw [hval, hform]
  · rw [construct_eq_ok (calculate_r_eq_ok hnx0 hnt0 hL0 (by rw [hform]; exact hle))
      (by omega) (initialState_eq_ok hreg)]
    rfl

/-- C3 (amended): construction performs no parameter validation at all — no
`ValidationError` exists in the code.  In particular, for every registered
function name and every `nx ≥ 1`, `nt ≥ 1`, `L > 0`, construction *succeeds*
for every non-positive `alpha` and non-negative `T` (the stability factor is
then non-positive, so the only remaining gate passes); this includes
malformed tuples such as `alpha ≤ 0`, `T = 0` or `nx < 3`. -/
theorem C3_no_validation (s : ℚ → ℚ) (fn : String) (alpha L T : ℚ)
    (nx nt : ℤ) (lb rb : Option ℚ) (e : RegEntry)
    (hreg : (functions s).lookup fn = some e)
    (halpha : alpha ≤ 0) (hT : 0 ≤ T) (hL : 0 < L)
    (hnx : 1 ≤ nx) (hnt : 1 ≤ nt) :
    (construct s fn alpha L T nx nt lb rb).isOk = true := by
  have hnt' : (0 : ℚ) ≤ (nt : ℚ) := by exact_mod_cast (by omega : (0 : ℤ) ≤ nt)
  have hnum : alpha * (T / (nt : ℚ)) ≤ 0 := by
    nlinarith [mul_nonneg (neg_nonneg.mpr halpha) (div_nonneg hT hnt')]
  have hle : alpha * (T / (nt : ℚ)) / (L / (nx : ℚ)) ^ 2 ≤ 1/2 := by
    have := div_nonpos_iff.mpr (Or.inr ⟨hnum, sq_nonneg (L / (nx : ℚ))⟩)
    linarith
  rw [construct_eq_ok (calculate_r_eq_ok (by omega) (by omega) (ne_of_gt hL) hle)
    (by omega) (initialState_eq_ok hreg)]
  rfl

/-- C6: a left boundary override is applied exactly when present, decided by
the explicit presence check of `applyLeft` (the `is not None` test), never by
truthiness: constructing with `leftBoundary = 0.0` yields
`History[0][0] = 0`, while leaving it unset yields the registered function's
value at `x = 0` (the grid's first coordinate is `0`). -/
theorem C6_left_override (s : ℚ → ℚ) (fn : String) (alpha L T : ℚ)
    (nx nt : ℤ) (rb : Option ℚ) (e : RegEntry) (sol sol' : Solution)
    (hreg : (functions s).lookup fn = some e) (hnx : 2 ≤ nx)
    (h1 : construct s fn alpha L T nx nt (some 0) rb = .ok sol)
    (h2 : construct s fn alpha L T nx nt none rb = .ok sol') :
    (sol.U.getD 0 []).getD 0 0 = 0 ∧
      (sol'.U.getD 0 []).getD 0 0 = e.f 0 := by
  have hg : 2 ≤ (linspace L nx.toNat).length := by
    rw [length_linspace]; omega
  obtain ⟨-, -, -, -, -, -, hU1, ist1, hist1, -, hu1, -⟩ := construct_ok h1
  obtain ⟨-, -, -, -, -, -, hU2, ist2, hist2, -, hu2, -⟩ := construct_ok h2
  obtain ⟨e1, he1, hiu1, -⟩ := initialState_ok hist1
  obtain ⟨e2, he2, hiu2, -⟩ := initialState_ok hist2
  rw [hreg] at he1 he2
  injection he1 with he1
  injection he2 with he2
  subst he1
  subst he2
  constructor
  · rw [hU1]
    show sol.u.getD 0 0 = 0
    rw [hu1, hiu1, getD_zero_applyRight _ _ (by
        rw [length_applyLeft, List.length_map]; omega),
      getD_zero_applyLeft_some _ _ (by rw [List.length_map]; omega)]
  · rw [hU2]
    show sol'.u.getD 0 0 = e.f 0
    rw [hu2, hiu2, getD_zero_applyRight _ _ (by
        rw [length_applyLeft, List.length_map]; omega)]
    show ((linspace L nx.toNat).map e.f).getD 0 0 = e.f 0
    rw [getD_zero_map _ _ (by omega), linspace_getD_zero _ _ (by omega)]

/-- C7: the registered function `"x"` is `lambda x: x`, which returns the very
array object it receives, so `InitialState.__init__` with that function and a
boundary override writes the override *into the caller's grid*: on the grid
`[0, 1/2, 1]` (that of `L = 1`, `nx = 3`) with `left_boundary = 5`, the grid
seen afterwards is `[5, 1/2, 1]`, not the unchanged `[0, 1/2, 1]` that the
specification promises. -/
theorem C7_grid_mutation :
    initialState (fun q => q) "x" [0, 1/2, 1] (some 5) none =
        .ok ⟨[5, 1/2, 1], [5, 1/2, 1]⟩ ∧
      ([5, 1/2, 1] : List ℚ) ≠ [0, 1/2, 1] ∧
      linspace 1 3 = [0, 1/2, 1] := by
  refine ⟨rfl, by norm_num, ?_⟩
  unfold linspace
  rw [if_neg (by omega)]
  norm_num [List.range_succ]

/-- C9: maximum principle.  For a successfully constructed solver with
`alpha, L, T > 0` the stored stability factor satisfies `r ≤ 1/2` and is
non-negative whenever any step is taken, so every interior value of every
state in the history stays between the minimum and the maximum of the
initial profile. -/
theorem C9_max_principle (s : ℚ → ℚ) (fn : String) (alpha L T : ℚ)
    (nx nt : ℤ) (lb rb : Option ℚ) (sol : Solution) (m M : ℚ)
    (h : construct s fn alpha L T nx nt lb rb = .ok sol)
    (halpha : 0 < alpha) (hL : 0 < L) (hT : 0 < T)
    (hm : sol.u.minimum = (m : ℚ)) (hM : sol.u.maximum = (M : ℚ)) :
    ∀ row ∈ (solve sol).1.2, ∀ i : ℕ, 1 ≤ i → i + 1 < row.length →
      m ≤ row.getD i 0 ∧ row.getD i 0 ≤ M := by
  obtain ⟨-, -, -, hnx', hnt', hr, hU, -, -, -, -, hneg⟩ := construct_ok h
  obtain ⟨hnx0, hnt0, hL0, hval, hhalf⟩ := calculate_r_ok hr
  have hb0 : ∀ v ∈ sol.u, m ≤ v ∧ v ≤ M := fun v hv =>
    ⟨List.minimum_le_of_mem hv hm, List.le_maximum_of_mem hv hM⟩
  intro row hrow i hi1 hi2
  rw [solve_hist hU] at hrow
  obtain ⟨k, hkmem, hk⟩ := List.mem_map.mp hrow
  have hklt : k < sol.nt.toNat + 1 := List.mem_range.mp hkmem
  subst hk
  have hmem : ((step sol.r)^[k] sol.u).getD i 0 ∈ (step sol.r)^[k] sol.u :=
    getD_mem 0 (by omega)
  rcases Nat.eq_zero_or_pos sol.nt.toNat with h0 | hpos
  · have hk0 : k = 0 := by omega
    subst hk0
    exact hb0 _ hmem
  · rw [hnt'] at hpos
    have hq : (0 : ℚ) ≤ (nt : ℚ) := by exact_mod_cast (by omega : (0 : ℤ) ≤ nt)
    have hr0 : 0 ≤ sol.r := by
      rw [hval]
      exact div_nonneg (mul_nonneg halpha.le (div_nonneg hT.le hq)) (sq_nonneg _)
    exact mem_iterate_step_bounds hr0 hhalf hb0 k _ hmem

/-- C10: `solve()` is not idempotent and does not reset the history: a second
call on the same object appends `nt` further states, returning a history of
length `2*nt + 1` whose first `nt + 1` entries are exactly the history
returned by the first call. -/
theorem C10_second_solve (s : ℚ → ℚ) (fn : String) (alpha L T : ℚ)
    (nx nt : ℤ) (lb rb : Option ℚ) (sol : Solution)
    (h : construct s fn alpha L T nx nt lb rb = .ok sol) (hnt : 1 ≤ nt) :
    ((((solve ((solve sol).2)).1.2).length : ℤ) = 2 * nt + 1) ∧
      ((solve ((solve sol).2)).1.2).take (((solve sol).1.2).length) =
        (solve sol).1.2 := by
  obtain ⟨-, -, -, -, hnt', -, hU, -⟩ := construct_ok h
  have key : (solve ((solve sol).2)).1.2 =
      (solve sol).1.2 ++ (List.range sol.nt.toNat).map
        (fun k => (step sol.r)^[k + 1] ((step sol.r)^[sol.nt.toNat] sol.u)) := by
    show (solveLoop sol.r sol.nt.toNat
        ((solveLoop sol.r sol.nt.toNat (sol.u, sol.U)).1,
         (solveLoop sol.r sol.nt.toNat (sol.u, sol.U)).2)).2 =
      (solveLoop sol.r sol.nt.toNat (sol.u, sol.U)).2 ++ _
    rw [solveLoop_eq sol.r sol.nt.toNat sol.u sol.U]
    dsimp only
    rw [solveLoop_eq]
  constructor
  · rw [key, List.length_append, solve_hist_length hU, List.length_map,
      List.length_range, hnt']
    push_cast
    omega
  · rw [key, List.take_left]

/-! ## Concrete runs used by the witnesses and counterexamples -/

theorem lookup_x {s : ℚ → ℚ} :
    (functions s).lookup "x" = some ⟨fun q => q, true⟩ := rfl

theorem lookup_sin (s : ℚ → ℚ) :
    (functions s).lookup "sin(pi*x)" = some ⟨s, false⟩ := rfl

theorem linspace14 : linspace 1 4 = [0, 1/3, 2/3, 1] := by
  unfold linspace
  rw [if_neg (by omega), show List.range 4 = [0, 1, 2, 3] from rfl]
  norm_num

theorem linspace15 : linspace 1 5 = [0, 1/4, 1/2, 3/4, 1] := by
  unfold linspace
  rw [if_neg (by omega), show List.range 5 = [0, 1, 2, 3, 4] from rfl]
  norm_num

theorem calc_r_A : calculate_r 1 1 (1/100) 4 2 = .ok (2/25) := by
  unfold calculate_r
  norm_num

/-- Concrete solver exercising the theorems: `initial_function = "x"`,
`alpha = 1`, `L = 1`, `nx = 4`, `T = 1/100`, `nt = 2`, no overrides;
`dx = 1/4`, `dt = 1/200`, `r = 2/25`. -/
def solA : Solution :=
  ⟨1, 1, 1/100, 4, 2, 2/25, [0, 1/3, 2/3, 1], [0, 1/3, 2/3, 1],
    [[0, 1/3, 2/3, 1]]⟩

theorem construct_solA :
    construct (fun q => q) "x" 1 1 (1/100) 4 2 none none = .ok solA := by
  have hi : initialState (fun q => q) "x" (linspace 1 (4 : ℤ).toNat) none none =
      .ok ⟨[0, 1/3, 2/3, 1], [0, 1/3, 2/3, 1]⟩ := by
    rw [initialState_eq_ok lookup_x, show ((4 : ℤ).toNat) = 4 from rfl, linspace14]
    rfl
  rw [construct_eq_ok calc_r_A (by omega) hi]
  rfl

/-- Like `solA` but with `nt = 1` (`r = 4/25`), for the zero-step edge case. -/
def solC : Solution :=
  ⟨1, 1, 1/100, 4, 1, 4/25, [0, 1/3, 2/3, 1], [0, 1/3, 2/3, 1],
    [[0, 1/3, 2/3, 1]]⟩

theorem construct_solC :
    construct (fun q => q) "x" 1 1 (1/100) 4 1 none none = .ok solC := by
  have hr : calculate_r 1 1 (1/100) 4 1 = .ok (4/25) := by
    unfold calculate_r
    norm_num
  have hi : initialState (fun q => q) "x" (linspace 1 (4 : ℤ).toNat) none none =
      .ok ⟨[0, 1/3, 2/3, 1], [0, 1/3, 2/3, 1]⟩ := by
    rw [initialState_eq_ok lookup_x, show ((4 : ℤ).toNat) = 4 from rfl, linspace14]
    rfl
  rw [construct_eq_ok hr (by omega) hi]
  rfl

/-- Solver built with `s = fun q => q + 1` standing for the `"sin(pi*x)"`
pointwise map and a left boundary override of exactly `0`. -/
def solB : Solution :=
  ⟨1, 1, 1/100, 4, 2, 2/25, [0, 1/3, 2/3, 1], [0, 4/3, 5/3, 2],
    [[0, 4/3, 5/3, 2]]⟩

/-- Same as `solB` but with the left boundary left unset. -/
def solB' : Solution :=
  ⟨1, 1, 1/100, 4, 2, 2/25, [0, 1/3, 2/3, 1], [1, 4/3, 5/3, 2],
    [[1, 4/3, 5/3, 2]]⟩

theorem construct_solB :
    construct (fun q => q + 1) "sin(pi*x)" 1 1 (1/100) 4 2 (some 0) none =
      .ok solB := by
  have hi : initialState (fun q => q + 1) "sin(pi*x)" (linspace 1 (4 : ℤ).toNat)
      (some 0) none = .ok ⟨[0, 1/3, 2/3, 1], [0, 4/3, 5/3, 2]⟩ := by
    rw [initialState_eq_ok (lookup_sin (fun q => q + 1)),
      show ((4 : ℤ).toNat) = 4 from rfl, linspace14]
    norm_num [applyLeft, applyRight]
  rw [construct_eq_ok calc_r_A (by omega) hi]
  rfl

theorem construct_solB' :
    construct (fun q => q + 1) "sin(pi*x)" 1 1 (1/100) 4 2 none none =
      .ok solB' := by
  have hi : initialState (fun q => q + 1) "sin(pi*x)" (linspace 1 (4 : ℤ).toNat)
      none none = .ok ⟨[0, 1/3, 2/3, 1], [1, 4/3, 5/3, 2]⟩ := by
    rw [initialState_eq_ok (lookup_sin (fun q => q + 1)),
      show ((4 : ℤ).toNat) = 4 from rfl, linspace14]
    norm_num [applyLeft, applyRight]
  rw [construct_eq_ok calc_r_A (by omega) hi]
  rfl

theorem solA_min : solA.u.minimum = ((0 : ℚ) : WithTop ℚ) :=
  List.minimum_eq_coe_iff.mpr
    ⟨by norm_num [solA], by
      intro a ha
      norm_num [solA] at ha
      rcases ha with h | h | h | h <;> norm_num [h]⟩

theorem solA_max : solA.u.maximum = ((1 : ℚ) : WithBot ℚ) :=
  List.maximum_eq_coe_iff.mpr
    ⟨by norm_num [solA], by
      intro a ha
      norm_num [solA] at ha
      rcases ha with h | h | h | h <;> norm_num [h]⟩

/-! ## Counterexamples -/

/-- Counterexample to C2 as stated: at `alpha = 1`, `L = 1`, `T = 1/10`,
`nx = 3`, `nt = 1` the claimed stability factor `alpha*(T/nt)*(nx-1)²/L²`
is `2/5 ≤ 1/2`, so the claim predicts successful construction — but the code
computes `dx = L/nx`, giving `r = 9/10 > 1/2`, and construction fails with
the instability error. -/
theorem C2_counterexample :
    (1 : ℚ) * ((1/10 : ℚ) / ((1 : ℤ) : ℚ)) * (((3 : ℤ) : ℚ) - 1) ^ 2 / (1 : ℚ) ^ 2 ≤ 1/2 ∧
      construct (fun q => q) "x" 1 1 (1/10) 3 1 none none = .error .unstable := by
  constructor
  · norm_num
  · refine construct_error_r ?_
    unfold calculate_r
    norm_num

/-- Counterexample to C3 as stated: `alpha = -1` is a malformed (non-positive)
parameter, yet construction succeeds and produces a solver (with stability
factor `-25`); no validation and no `ValidationError` exist in the code. -/
theorem C3_counterexample :
    (-1 : ℚ) ≤ 0 ∧
      construct (fun q => q) "x" (-1) 1 1 5 1 none none =
        .ok ⟨-1, 1, 1, 5, 1, -25, [0, 1/4, 1/2, 3/4, 1], [0, 1/4, 1/2, 3/4, 1],
          [[0, 1/4, 1/2, 3/4, 1]]⟩ := by
  refine ⟨by norm_num, ?_⟩
  have hr : calculate_r (-1) 1 1 5 1 = .ok (-25) := by
    unfold calculate_r
    norm_num
  have hi : initialState (fun q => q) "x" (linspace 1 (5 : ℤ).toNat) none none =
      .ok ⟨[0, 1/4, 1/2, 3/4, 1], [0, 1/4, 1/2, 3/4, 1]⟩ := by
    rw [initialState_eq_ok lookup_x, show ((5 : ℤ).toNat) = 5 from rfl, linspace15]
    rfl
  rw [construct_eq_ok hr (by omega) hi]

/-! ## Witnesses -/

/-- Witness for C1: the stencil identity at step 0, interior index 1 of the
concrete run `solA`. -/
theorem C1_stencil_witness :
    (((solve solA).1.2).getD 1 []).getD 1 0 =
      (((solve solA).1.2).getD 0 []).getD 1 0 +
        solA.r * ((((solve solA).1.2).getD 0 []).getD 2 0
          - 2 * (((solve solA).1.2).getD 0 []).getD 1 0
          + (((solve solA).1.2).getD 0 []).getD 0 0) :=
  C1_stencil (fun q => q) "x" 1 1 (1/100) 4 2 none none solA construct_solA
    0 1 (by decide) (by omega) (by decide)

/-- Witness for C2 (amended) at the concrete run `solA`: the stored stability
factor is `alpha*(T/nt)*nx²/L²`. -/
theorem C2_stability_witness :
    solA.r = 1 * ((1/100 : ℚ) / ((2 : ℤ) : ℚ)) * ((4 : ℤ) : ℚ) ^ 2 / (1 : ℚ) ^ 2 :=
  (C2_stability (fun q => q) "x" 1 1 (1/100) 4 2 none none ⟨fun q => q, true⟩
    lookup_x (by norm_num) (by norm_num) (by norm_num) (by omega) (by omega)).2.1
    solA construct_solA

/-- Witness for C3 (amended): construction succeeds on the malformed
parameter tuple with `alpha = -1`. -/
theorem C3_no_validation_witness :
    (construct (fun q => q) "x" (-1) 1 1 5 1 none none).isOk = true :=
  C3_no_validation (fun q => q) "x" (-1) 1 1 5 1 none none ⟨fun q => q, true⟩
    lookup_x (by norm_num) (by norm_num) (by norm_num) (by omega) (by omega)

/-- Witness for C4 at the concrete run `solC` (`nt = 1`): the zero-step edge
case yields a history of length 2. -/
theorem C4_history_length_witness :
    (((solve solC).1.2).length : ℤ) = 1 + 1 :=
  C4_history_length (fun q => q) "x" 1 1 (1/100) 4 1 none none solC
    construct_solC (by omega)

/-- Witness for C5 at the concrete run `solA`, step `k = 2`. -/
theorem C5_boundary_witness :
    (((solve solA).1.2).getD 2 []).getD 0 0 =
        (((solve solA).1.2).getD 0 []).getD 0 0 ∧
      (((solve solA).1.2).getD 2 []).getD (solA.u.length - 1) 0 =
        (((solve solA).1.2).getD 0 []).getD (solA.u.length - 1) 0 :=
  C5_boundary (fun q => q) "x" 1 1 (1/100) 4 2 none none solA construct_solA
    2 (by decide)

/-- Witness for C6: with the `"sin(pi*x)"` entry modelled by `fun q => q + 1`,
the override `leftBoundary = 0` yields `History[0][0] = 0` while leaving it
unset yields the function's value `1` at `x = 0`. -/
theorem C6_left_override_witness :
    (solB.U.getD 0 []).getD 0 0 = 0 ∧ (solB'.U.getD 0 []).getD 0 0 = 1 := by
  have H := C6_left_override (fun q => q + 1) "sin(pi*x)" 1 1 (1/100) 4 2 none
    ⟨fun q => q + 1, false⟩ solB solB' (lookup_sin (fun q => q + 1)) (by omega)
    construct_solB construct_solB'
  exact ⟨H.1, by rw [H.2]; norm_num⟩

/-- Witness for C8 at the concrete run `solA`. -/
theorem C8_total_witness :
    (solve solA).1.1 = solA.x ∧
      ((solve solA).1.2).length = solA.nt.toNat + 1 :=
  C8_total (fun q => q) "x" 1 1 (1/100) 4 2 none none solA construct_solA

/-- Witness for C9 at the concrete run `solA`: the interior value at index 1
of the state after one step stays within the initial range `[0, 1]`. -/
theorem C9_max_principle_witness :
    (0 : ℚ) ≤ (((solve solA).1.2).getD 1 []).getD 1 0 ∧
      (((solve solA).1.2).getD 1 []).getD 1 0 ≤ 1 :=
  C9_max_principle (fun q => q) "x" 1 1 (1/100) 4 2 none none solA 0 1
    construct_solA (by norm_num) (by norm_num) (by norm_num) solA_min solA_max
    (((solve solA).1.2).getD 1 []) (getD_mem [] (by decide)) 1 (by omega)
    (by decide)

/-- Witness for C10 at the concrete run `solA`: a second `solve()` returns a
history of length `2*2 + 1` extending the first one. -/
theorem C10_second_solve_witness :
    ((((solve ((solve solA).2)).1.2).length : ℤ) = 2 * 2 + 1) ∧
      ((solve ((solve solA).2)).1.2).take (((solve solA).1.2).length) =
        (solve solA).1.2 :=
  C10_second_solve (fun q => q) "x" 1 1 (1/100) 4 2 none none solA
    construct_solA (by omega)

end HeatSim
